import Mathlib

/-!
Shallow embedding of the QKV-attention notebook
(src/C4_W1/C4_W1_Ungraded_Lab_2_QKV_Attention.ipynb).

Numeric arrays are modelled as real-valued matrices carrying their shape;
numpy failure modes are modelled by an explicit error type:
  - shapeMismatch : the ValueError numpy raises when np.dot dimensions differ;
  - assertionError : the assert in calculate_weights failing;
  - indexError : indexing position 0 of an empty array, or a row lookup
    outside the embedding matrix.
Floating-point arithmetic is idealised to real arithmetic.
-/

namespace QKV

/-- A two-dimensional numpy array: a shape together with an entry function.
Entries outside the shape are junk and never referenced by the theorems. -/
structure Mat where
  rows : ℕ
  cols : ℕ
  entry : ℕ → ℕ → ℝ

inductive AttnError where
  | shapeMismatch
  | assertionError
  | indexError
  deriving DecidableEq

/-- numpy transpose: keys.T -/
def transpose (a : Mat) : Mat :=
  ⟨a.cols, a.rows, fun i j => a.entry j i⟩

/-- The entry function of np.dot(a, b) for aligned shapes. -/
def matmulRaw (a b : Mat) : Mat :=
  ⟨a.rows, b.cols, fun i j => ∑ t in Finset.range a.cols, a.entry i t * b.entry t j⟩

/-- np.dot(a, b): raises ValueError (ShapeMismatch) unless a.cols = b.rows. -/
def matmul (a b : Mat) : Except AttnError Mat :=
  if a.cols = b.rows then .ok (matmulRaw a b) else .error .shapeMismatch

/-- Elementwise division of a matrix by a scalar. -/
noncomputable def scaleDiv (a : Mat) (d : ℝ) : Mat :=
  ⟨a.rows, a.cols, fun i j => a.entry i j / d⟩

/-- Source softmax:
`return np.exp(x) / np.expand_dims(np.sum(np.exp(x), axis=axis), axis)`.
axis=0 normalises each column; any other axis value (the source only ever
passes 1) normalises each row. -/
noncomputable def softmax (x : Mat) (axis : ℕ) : Mat :=
  if axis = 0 then
    ⟨x.rows, x.cols, fun i j =>
      Real.exp (x.entry i j) / ∑ t in Finset.range x.rows, Real.exp (x.entry t j)⟩
  else
    ⟨x.rows, x.cols, fun i j =>
      Real.exp (x.entry i j) / ∑ t in Finset.range x.cols, Real.exp (x.entry i t)⟩

/-- weights.sum(axis=1)[i] : the sum of row i. -/
def rowSum (a : Mat) (i : ℕ) : ℝ :=
  ∑ j in Finset.range a.cols, a.entry i j

/-- The weight matrix computed inside calculate_weights once np.dot has
succeeded: softmax(np.dot(queries, keys.T) / np.sqrt(keys.shape[1]), axis=1). -/
noncomputable def rawWeights (queries keys : Mat) : Mat :=
  softmax (scaleDiv (matmulRaw queries (transpose keys)) (Real.sqrt keys.cols)) 1

/-- Source calculate_weights:
`dot = np.dot(queries, keys.T) / np.sqrt(keys.shape[1])`
`weights = softmax(dot, axis=1)`
`assert weights.sum(axis=1)[0] == 1`
`return weights`
The assert first indexes position 0 of weights.sum(axis=1) (IndexError when
there are no query rows), then compares with 1 (AssertionError on failure). -/
noncomputable def calculate_weights (queries keys : Mat) : Except AttnError Mat :=
  match matmul queries (transpose keys) with
  | .error e => .error e
  | .ok d =>
      let weights := softmax (scaleDiv d (Real.sqrt keys.cols)) 1
      if 0 < weights.rows then
        if rowSum weights 0 = 1 then .ok weights
        else .error .assertionError
      else .error .indexError

/-- Source attention_qkv:
`weights = calculate_weights(queries, keys)`
`return np.dot(weights, values)` -/
noncomputable def attention_qkv (queries keys values : Mat) : Except AttnError Mat :=
  match calculate_weights queries keys with
  | .error e => .error e
  | .ok weights => matmul weights values

/-- Source tokenize: lower-case, split on single spaces, look each word up in
the mapping, and use -1 for words the mapping lacks (the KeyError branch).
Lower-casing and splitting are modelled on the character list of the
sentence; List.splitOn on the space character is exactly the Python
split(" "): every single space separates, consecutive spaces give empty
words. -/
def tokenize (sentence : String) (tokenMapping : String → Option ℤ) : List ℤ :=
  ((sentence.data.map Char.toLower).splitOn ' ').map
    fun word => (tokenMapping ⟨word⟩).getD (-1)

/-- Python and numpy row indexing with an integer index t into n rows:
0 ≤ t < n selects row t, negative t counts from the end (row n + t),
anything else raises IndexError (modelled as none). -/
def pyIndex (n : ℕ) (t : ℤ) : Option ℕ :=
  if 0 ≤ t then
    if t < (n : ℤ) then some t.toNat else none
  else
    if 0 ≤ t + (n : ℤ) then some (t + (n : ℤ)).toNat else none

/-- Source embed: start from a zero matrix of shape (len(tokens), embed_size);
write a zero row where the token is -1, and the row embeddings[token]
otherwise. A row lookup outside the matrix raises IndexError; since the
result is only the final matrix or the error, checking every token up front
is observationally the same as failing at the first bad one. -/
def embed (tokens : List ℤ) (embeddings : Mat) : Except AttnError Mat :=
  if tokens.all fun t => (t == -1) || (pyIndex embeddings.rows t).isSome then
    .ok ⟨tokens.length, embeddings.cols, fun i j =>
      match tokens.get? i with
      | none => 0
      | some t =>
          if t = -1 then 0
          else
            match pyIndex embeddings.rows t with
            | some k => embeddings.entry k j
            | none => 0⟩
  else .error .indexError

/-- Modelled from the spec (section 4.1 edge cases): the numerically
stabilised softmax that subtracts the per-axis maximum before
exponentiating. Per-row maximum along the key axis. -/
noncomputable def rowMax (x : Mat) (i : ℕ) : ℝ :=
  if h : 0 < x.cols then
    (Finset.range x.cols).sup' (Finset.nonempty_range_iff.mpr h.ne') (x.entry i)
  else 0

/-- Modelled from the spec (section 4.1 edge cases): per-column maximum. -/
noncomputable def colMax (x : Mat) (j : ℕ) : ℝ :=
  if h : 0 < x.rows then
    (Finset.range x.rows).sup' (Finset.nonempty_range_iff.mpr h.ne') fun i => x.entry i j
  else 0

/-- Modelled from the spec (section 4.1 edge cases): softmax variant that
first subtracts the per-axis maximum before exponentiating. -/
noncomputable def softmax_stable (x : Mat) (axis : ℕ) : Mat :=
  if axis = 0 then
    ⟨x.rows, x.cols, fun i j =>
      Real.exp (x.entry i j - colMax x j) /
        ∑ t in Finset.range x.rows, Real.exp (x.entry t j - colMax x j)⟩
  else
    ⟨x.rows, x.cols, fun i j =>
      Real.exp (x.entry i j - rowMax x i) /
        ∑ t in Finset.range x.cols, Real.exp (x.entry i t - rowMax x i)⟩

/-- A concrete 1x1 zero matrix used by the witnesses. -/
def matOne : Mat := ⟨1, 1, fun _ _ => 0⟩

lemma rawWeights_rows (q k : Mat) : (rawWeights q k).rows = q.rows := rfl

lemma rawWeights_cols (q k : Mat) : (rawWeights q k).cols = k.rows := rfl

lemma rawWeights_entry (q k : Mat) (i j : ℕ) :
    (rawWeights q k).entry i j =
      Real.exp ((∑ t in Finset.range q.cols, q.entry i t * k.entry j t) / Real.sqrt k.cols) /
        ∑ u in Finset.range k.rows,
          Real.exp ((∑ t in Finset.range q.cols, q.entry i t * k.entry u t) / Real.sqrt k.cols) :=
  rfl

/-- calculate_weights, rewritten as a chain of shape and assertion checks. -/
lemma calculate_weights_eq (queries keys : Mat) :
    calculate_weights queries keys =
      if queries.cols = keys.cols then
        if 0 < queries.rows then
          if rowSum (rawWeights queries keys) 0 = 1 then .ok (rawWeights queries keys)
          else .error .assertionError
        else .error .indexError
      else .error .shapeMismatch := by
  unfold calculate_weights matmul
  by_cases hc : queries.cols = keys.cols
  · rw [if_pos (show queries.cols = (transpose keys).rows from hc), if_pos hc]
    rfl
  · rw [if_neg (show ¬queries.cols = (transpose keys).rows from hc), if_neg hc]

/-- Inversion: what a successful calculate_weights run tells us. -/
lemma calculate_weights_ok_iff {queries keys W : Mat} :
    calculate_weights queries keys = .ok W ↔
      queries.cols = keys.cols ∧ 0 < queries.rows ∧
        rowSum (rawWeights queries keys) 0 = 1 ∧ W = rawWeights queries keys := by
  rw [calculate_weights_eq]
  split_ifs with hc hq hs
  · simp [hc, hq, hs, eq_comm]
  · simp [hc, hq, hs]
  · simp [hc, hq]
  · simp [hc]

lemma sum_exp_pos {n : ℕ} (hn : 0 < n) (f : ℕ → ℝ) :
    0 < ∑ t in Finset.range n, Real.exp (f t) :=
  Finset.sum_pos (fun _ _ => Real.exp_pos _) (Finset.nonempty_range_iff.mpr hn.ne')

/-- Every row of the raw weight matrix sums to exactly 1 once there is at
least one key row. -/
lemma rawWeights_rowSum (q k : Mat) (hk : 0 < k.rows) (i : ℕ) :
    rowSum (rawWeights q k) i = 1 := by
  have hpos := sum_exp_pos hk
    fun u => (∑ t in Finset.range q.cols, q.entry i t * k.entry u t) / Real.sqrt k.cols
  unfold rowSum
  rw [rawWeights_cols]
  simp only [rawWeights_entry]
  rw [← Finset.sum_div, div_self hpos.ne']

/-- A successful calculate_weights run forces at least one key row. -/
lemma calculate_weights_ok_key_pos {queries keys W : Mat}
    (h : calculate_weights queries keys = .ok W) : 0 < keys.rows := by
  rcases calculate_weights_ok_iff.mp h with ⟨-, -, hs, -⟩
  by_contra hk
  have hk0 : keys.rows = 0 := Nat.eq_zero_of_not_pos hk
  rw [rowSum, rawWeights_cols, hk0, Finset.range_zero, Finset.sum_empty] at hs
  exact zero_ne_one hs

/-- A concrete 1x2 zero matrix (one row, two columns) used by witnesses. -/
def matWide : Mat := ⟨1, 2, fun _ _ => 0⟩

/-- A concrete 0x1 matrix: no query rows. -/
def matEmptyQ : Mat := ⟨0, 1, fun _ _ => 0⟩

/-- A concrete 2x1 zero matrix used by witnesses. -/
def matTall : Mat := ⟨2, 1, fun _ _ => 0⟩

/-- calculate_weights succeeds on the 1x1 zero matrix against itself. -/
lemma cw_matOne : calculate_weights matOne matOne = .ok (rawWeights matOne matOne) :=
  calculate_weights_ok_iff.mpr
    ⟨rfl, Nat.one_pos, rawWeights_rowSum matOne matOne Nat.one_pos 0, rfl⟩

/-- C1 (amended: the queries and the keys each need at least one row;
with no query row the assert raises IndexError, with no key row it raises
AssertionError): for queries of shape (q, D) and keys of shape (k, D) with
D > 0, q > 0 and k > 0, calculate_weights returns exactly the row-wise
softmax of the dot products of query and key rows divided by sqrt D. -/
theorem calculate_weights_is_row_softmax (queries keys : Mat)
    (hc : queries.cols = keys.cols) (_hD : 0 < keys.cols)
    (hq : 0 < queries.rows) (hk : 0 < keys.rows) :
    ∃ W, calculate_weights queries keys = .ok W ∧
      W.rows = queries.rows ∧ W.cols = keys.rows ∧
      ∀ i j, i < queries.rows → j < keys.rows →
        W.entry i j =
          Real.exp ((∑ t in Finset.range queries.cols, queries.entry i t * keys.entry j t) /
              Real.sqrt keys.cols) /
            ∑ u in Finset.range keys.rows,
              Real.exp ((∑ t in Finset.range queries.cols, queries.entry i t * keys.entry u t) /
                Real.sqrt keys.cols) := by
  refine ⟨rawWeights queries keys,
    calculate_weights_ok_iff.mpr ⟨hc, hq, rawWeights_rowSum _ _ hk 0, rfl⟩,
    rawWeights_rows _ _, rawWeights_cols _ _, ?_⟩
  intro i j _ _
  exact rawWeights_entry _ _ i j

theorem calculate_weights_is_row_softmax_witness :
    ∃ W, calculate_weights matOne matOne = .ok W ∧
      W.rows = matOne.rows ∧ W.cols = matOne.rows ∧
      ∀ i j, i < matOne.rows → j < matOne.rows →
        W.entry i j =
          Real.exp ((∑ t in Finset.range matOne.cols, matOne.entry i t * matOne.entry j t) /
              Real.sqrt matOne.cols) /
            ∑ u in Finset.range matOne.rows,
              Real.exp ((∑ t in Finset.range matOne.cols, matOne.entry i t * matOne.entry u t) /
                Real.sqrt matOne.cols) :=
  calculate_weights_is_row_softmax matOne matOne rfl Nat.one_pos Nat.one_pos Nat.one_pos

/-- C1 counterexample: with zero query rows (a legal numpy shape (0, 1)) and
D = 1 > 0, calculate_weights raises IndexError instead of returning the
(empty) row-wise softmax matrix, because the assert indexes row 0. -/
theorem calculate_weights_empty_query_errors :
    calculate_weights matEmptyQ matOne = .error .indexError ∧
      ∀ W, calculate_weights matEmptyQ matOne ≠ .ok W := by
  have h : calculate_weights matEmptyQ matOne = .error .indexError := by
    rw [calculate_weights_eq, if_pos (show matEmptyQ.cols = matOne.cols from rfl), if_neg (by decide)]
  exact ⟨h, fun W hW => Except.noConfusion (h ▸ hW)⟩

/-- C2: whenever calculate_weights returns a weight matrix, every row sums
to 1 within 1e-6 (here: exactly, in real arithmetic) and every entry lies
in the closed interval from 0 to 1. -/
theorem calculate_weights_rows_sum_one (queries keys W : Mat)
    (h : calculate_weights queries keys = .ok W) :
    (∀ i, i < W.rows → |rowSum W i - 1| ≤ 1 / 1000000) ∧
      ∀ i j, i < W.rows → j < W.cols → 0 ≤ W.entry i j ∧ W.entry i j ≤ 1 := by
  have hk := calculate_weights_ok_key_pos h
  rcases calculate_weights_ok_iff.mp h with ⟨-, -, -, hW⟩
  subst hW
  constructor
  · intro i _
    rw [rawWeights_rowSum _ _ hk i]
    norm_num
  · intro i j _ hj
    rw [rawWeights_cols] at hj
    have hpos := sum_exp_pos hk
      fun u => (∑ t in Finset.range queries.cols, queries.entry i t * keys.entry u t) /
        Real.sqrt keys.cols
    rw [rawWeights_entry]
    refine ⟨le_of_lt (div_pos (Real.exp_pos _) hpos), ?_⟩
    rw [div_le_one hpos]
    exact Finset.single_le_sum (fun u _ => (Real.exp_pos
      ((∑ t in Finset.range queries.cols, queries.entry i t * keys.entry u t) /
        Real.sqrt keys.cols)).le) (Finset.mem_range.mpr hj)

theorem calculate_weights_rows_sum_one_witness :
    (∀ i, i < (rawWeights matOne matOne).rows →
        |rowSum (rawWeights matOne matOne) i - 1| ≤ 1 / 1000000) ∧
      ∀ i j, i < (rawWeights matOne matOne).rows → j < (rawWeights matOne matOne).cols →
        0 ≤ (rawWeights matOne matOne).entry i j ∧ (rawWeights matOne matOne).entry i j ≤ 1 :=
  calculate_weights_rows_sum_one matOne matOne (rawWeights matOne matOne) cw_matOne

/-- C3: when the weight computation succeeds and the key and value row
counts agree, attention_qkv returns the weight matrix multiplied by the
values matrix, of shape (query rows, value columns). -/
theorem attention_qkv_is_weighted_values (queries keys values W : Mat)
    (hok : calculate_weights queries keys = .ok W) (hkv : keys.rows = values.rows) :
    ∃ M, attention_qkv queries keys values = .ok M ∧
      M.rows = queries.rows ∧ M.cols = values.cols ∧
      ∀ i j, i < queries.rows → j < values.cols →
        M.entry i j = ∑ t in Finset.range keys.rows, W.entry i t * values.entry t j := by
  rcases calculate_weights_ok_iff.mp hok with ⟨-, -, -, hW⟩
  subst hW
  refine ⟨matmulRaw (rawWeights queries keys) values, ?_, rfl, rfl, ?_⟩
  · unfold attention_qkv
    rw [hok]
    show matmul (rawWeights queries keys) values = _
    unfold matmul
    rw [if_pos ((rawWeights_cols queries keys).trans hkv)]
  · intro i j _ _
    rfl

theorem attention_qkv_is_weighted_values_witness :
    ∃ M, attention_qkv matOne matOne matOne = .ok M ∧
      M.rows = matOne.rows ∧ M.cols = matOne.cols ∧
      ∀ i j, i < matOne.rows → j < matOne.cols →
        M.entry i j = ∑ t in Finset.range matOne.rows,
          (rawWeights matOne matOne).entry i t * matOne.entry t j :=
  attention_qkv_is_weighted_values matOne matOne matOne (rawWeights matOne matOne) cw_matOne rfl

/-- C4: whenever the query and key embedding dimensions (column counts)
differ, calculate_weights fails with ShapeMismatch, from the np.dot call,
before anything else runs. -/
theorem calculate_weights_shape_mismatch (queries keys : Mat)
    (h : queries.cols ≠ keys.cols) :
    calculate_weights queries keys = .error .shapeMismatch := by
  rw [calculate_weights_eq, if_neg h]

theorem calculate_weights_shape_mismatch_witness :
    calculate_weights matOne matWide = .error .shapeMismatch :=
  calculate_weights_shape_mismatch matOne matWide (by decide)

/-- C5 (amended: provided the weight computation itself succeeds; with an
empty queries matrix the failure is IndexError instead): when
calculate_weights returns a weight matrix and the key row count differs
from the value row count, attention_qkv fails with ShapeMismatch. -/
theorem attention_qkv_key_value_mismatch (queries keys values W : Mat)
    (hok : calculate_weights queries keys = .ok W) (hkv : keys.rows ≠ values.rows) :
    attention_qkv queries keys values = .error .shapeMismatch := by
  rcases calculate_weights_ok_iff.mp hok with ⟨-, -, -, hW⟩
  subst hW
  unfold attention_qkv
  rw [hok]
  show matmul (rawWeights queries keys) values = _
  unfold matmul
  exact if_neg fun hEq => hkv ((rawWeights_cols queries keys).symm.trans hEq)

theorem attention_qkv_key_value_mismatch_witness :
    attention_qkv matOne matOne matTall = .error .shapeMismatch :=
  attention_qkv_key_value_mismatch matOne matOne matTall (rawWeights matOne matOne)
    cw_matOne (by decide)

/-- C5 counterexample: queries of shape (0, 1), keys of shape (1, 1) and
values of shape (2, 1) have mismatched key and value row counts, yet
attention_qkv fails with IndexError (from the assert in calculate_weights),
not with ShapeMismatch. -/
theorem attention_qkv_mismatch_without_shape_error :
    attention_qkv matEmptyQ matOne matTall = .error .indexError ∧
      matOne.rows ≠ matTall.rows ∧
      attention_qkv matEmptyQ matOne matTall ≠ .error .shapeMismatch := by
  have hcw : calculate_weights matEmptyQ matOne = .error .indexError := by
    rw [calculate_weights_eq, if_pos (show matEmptyQ.cols = matOne.cols from rfl), if_neg (by decide)]
  have h : attention_qkv matEmptyQ matOne matTall = .error .indexError := by
    unfold attention_qkv
    rw [hcw]
  refine ⟨h, by decide, ?_⟩
  rw [h]
  simp only [ne_eq, Except.error.injEq]
  decide

/-- C6: self-attention on a single-row matrix with positive embedding
dimension yields the 1x1 weight matrix whose unique entry is exactly 1. -/
theorem calculate_weights_self_single_row (M : Mat) (h1 : M.rows = 1) (_hD : 0 < M.cols) :
    ∃ W, calculate_weights M M = .ok W ∧ W.rows = 1 ∧ W.cols = 1 ∧ W.entry 0 0 = 1 := by
  have hk : 0 < M.rows := h1 ▸ Nat.one_pos
  refine ⟨rawWeights M M,
    calculate_weights_ok_iff.mpr ⟨rfl, hk, rawWeights_rowSum _ _ hk 0, rfl⟩,
    (rawWeights_rows M M).trans h1, (rawWeights_cols M M).trans h1, ?_⟩
  rw [rawWeights_entry, h1, Finset.sum_range_one]
  exact div_self (Real.exp_ne_zero _)

theorem calculate_weights_self_single_row_witness :
    ∃ W, calculate_weights matOne matOne = .ok W ∧
      W.rows = 1 ∧ W.cols = 1 ∧ W.entry 0 0 = 1 :=
  calculate_weights_self_single_row matOne rfl Nat.one_pos

/-- C9: calculate_weights and attention_qkv are deterministic: two runs on
equal inputs produce equal outputs; the embedding has no hidden state or
randomness, matching the source, whose numpy calls are pure. -/
theorem attention_deterministic (q q2 k k2 v v2 : Mat)
    (hq : q = q2) (hk : k = k2) (hv : v = v2) :
    calculate_weights q k = calculate_weights q2 k2 ∧
      attention_qkv q k v = attention_qkv q2 k2 v2 := by
  subst hq
  subst hk
  subst hv
  exact ⟨rfl, rfl⟩

theorem attention_deterministic_witness :
    calculate_weights matOne matOne = calculate_weights matOne matOne ∧
      attention_qkv matOne matOne matOne = attention_qkv matOne matOne matOne :=
  attention_deterministic matOne matOne matOne matOne matOne matOne rfl rfl rfl

/-- The vocabulary of the end-to-end scenario: hello maps to 0, nothing
else is known. -/
def helloVocab : String → Option ℤ := fun w => if w = "hello" then some 0 else none

/-- The 1-row embedding matrix [[1.0, 2.0]] of the end-to-end scenario. -/
def matRow12 : Mat := ⟨1, 2, fun _ j => if j = 0 then 1 else 2⟩

/-- C7: tokenizing "hello world" against the vocabulary mapping hello to 0
yields [0, -1]; embedding [0, -1] over [[1.0, 2.0]] yields the matrix with
rows [1, 2] and [0, 0]; and in general every position holding the
out-of-vocabulary sentinel -1 produces an all-zero row of the embedded
sequence, wherever it sits. -/
theorem tokenize_embed_end_to_end :
    tokenize "hello world" helloVocab = [0, -1] ∧
      (∃ M, embed [0, -1] matRow12 = .ok M ∧ M.rows = 2 ∧ M.cols = 2 ∧
        M.entry 0 0 = 1 ∧ M.entry 0 1 = 2 ∧ M.entry 1 0 = 0 ∧ M.entry 1 1 = 0) ∧
      ∀ tokens E M i, embed tokens E = .ok M → tokens.get? i = some (-1) →
        ∀ j, M.entry i j = 0 := by
  refine ⟨by decide, ⟨_, rfl, rfl, rfl, rfl, rfl, rfl, rfl⟩, ?_⟩
  intro tokens E M i hok hi j
  unfold embed at hok
  by_cases hcond : (tokens.all fun u => (u == -1) || (pyIndex E.rows u).isSome) = true
  · rw [if_pos hcond, Except.ok.injEq] at hok
    subst hok
    simp only [hi]
    norm_num
  · rw [if_neg hcond] at hok
    exact absurd hok (by simp)

theorem tokenize_embed_end_to_end_witness :
    ∃ M, embed [(0 : ℤ), -1] matRow12 = .ok M ∧ M.entry 1 0 = 0 := by
  obtain ⟨-, ⟨M, hM, -⟩, hzero⟩ := tokenize_embed_end_to_end
  exact ⟨M, hM, hzero [0, -1] matRow12 M 1 hM rfl 0⟩

/-- Shifting every exponent by the same constant leaves the normalised
ratio unchanged: the algebraic core of max-subtraction stability. -/
lemma exp_shift_div (f : ℕ → ℝ) (n : ℕ) (m : ℝ) (j : ℕ) :
    Real.exp (f j - m) / ∑ t in Finset.range n, Real.exp (f t - m) =
      Real.exp (f j) / ∑ t in Finset.range n, Real.exp (f t) := by
  have h1 : ∀ t, Real.exp (f t - m) = Real.exp (f t) * (Real.exp m)⁻¹ := fun t => by
    rw [Real.exp_sub, div_eq_mul_inv]
  simp only [h1]
  rw [← Finset.sum_mul]
  exact mul_div_mul_right _ _ (inv_ne_zero (Real.exp_ne_zero m))

/-- C8: the naive softmax of the source and the numerically stabilised
variant that first subtracts the per-axis maximum agree exactly: same
shape, and equal entries throughout the shape, for either axis. -/
theorem softmax_matches_stable (x : Mat) (axis i j : ℕ)
    (_hi : i < x.rows) (_hj : j < x.cols) :
    (softmax x axis).rows = (softmax_stable x axis).rows ∧
      (softmax x axis).cols = (softmax_stable x axis).cols ∧
      (softmax x axis).entry i j = (softmax_stable x axis).entry i j := by
  by_cases ha : axis = 0
  · subst ha
    refine ⟨rfl, rfl, ?_⟩
    exact (exp_shift_div (fun t => x.entry t j) x.rows (colMax x j) i).symm
  · unfold softmax softmax_stable
    rw [if_neg ha, if_neg ha]
    exact ⟨rfl, rfl, (exp_shift_div (x.entry i) x.cols (rowMax x i) j).symm⟩

theorem softmax_matches_stable_witness :
    (softmax matOne 1).rows = (softmax_stable matOne 1).rows ∧
      (softmax matOne 1).cols = (softmax_stable matOne 1).cols ∧
      (softmax matOne 1).entry 0 0 = (softmax_stable matOne 1).entry 0 0 :=
  softmax_matches_stable matOne 1 0 0 Nat.one_pos Nat.one_pos

/-- A concrete 2x1 matrix with distinct rows, used by the C10 witness. -/
def matTwoVals : Mat := ⟨2, 1, fun i _ => if i = 0 then 3 else 4⟩

/-- A concrete 1x1 matrix with entry 5, used by the C10 counterexample. -/
def matSingle : Mat := ⟨1, 1, fun _ _ => 5⟩

/-- C10 (amended: a negative token other than -1 selects a row counted
from the end only when it is within range, that is when it is at least
minus the row count; below that the lookup fails just as it does at or
beyond the row count): embed treats only the exact value -1 as the
out-of-vocabulary sentinel. -/
theorem embed_python_negative_indexing :
    (∀ tokens E M i t, embed tokens E = .ok M → tokens.get? i = some t →
        t ≠ -1 → t < 0 →
        0 ≤ t + (E.rows : ℤ) ∧
          ∀ j, M.entry i j = E.entry (t + (E.rows : ℤ)).toNat j) ∧
      ∀ tokens E i t, tokens.get? i = some t → (E.rows : ℤ) ≤ t →
        embed tokens E = .error .indexError := by
  constructor
  · intro tokens E M i t hok hi hne hneg
    unfold embed at hok
    by_cases hcond : (tokens.all fun u => (u == -1) || (pyIndex E.rows u).isSome) = true
    · rw [if_pos hcond, Except.ok.injEq] at hok
      subst hok
      rw [List.all_eq_true] at hcond
      have hp := hcond t (List.get?_mem hi)
      rw [beq_eq_false_iff_ne.mpr hne, Bool.false_or] at hp
      have hnonneg : 0 ≤ t + (E.rows : ℤ) := by
        by_contra hlt
        rw [pyIndex, if_neg (not_le.mpr hneg), if_neg hlt] at hp
        exact Bool.noConfusion hp
      have hpy : pyIndex E.rows t = some (t + (E.rows : ℤ)).toNat := by
        rw [pyIndex, if_neg (not_le.mpr hneg), if_pos hnonneg]
      refine ⟨hnonneg, fun j => ?_⟩
      simp only [hi]
      rw [if_neg hne, hpy]
    · rw [if_neg hcond] at hok
      exact absurd hok (by simp)
  · intro tokens E i t hi ht
    unfold embed
    rw [if_neg]
    intro hall
    rw [List.all_eq_true] at hall
    have hp := hall t (List.get?_mem hi)
    have h1 : (t == -1) = false := by
      rw [beq_eq_false_iff_ne]
      omega
    have h2 : pyIndex E.rows t = none := by
      rw [pyIndex, if_pos (le_trans (Int.natCast_nonneg _) ht), if_neg (not_lt.mpr ht)]
    rw [h1, h2, Bool.false_or] at hp
    exact Bool.noConfusion hp

theorem embed_python_negative_indexing_witness :
    ∃ M, embed [(-2 : ℤ)] matTwoVals = .ok M ∧
      M.entry 0 0 = matTwoVals.entry ((-2 : ℤ) + (matTwoVals.rows : ℤ)).toNat 0 := by
  refine ⟨_, rfl, ?_⟩
  exact (embed_python_negative_indexing.1 [(-2 : ℤ)] matTwoVals _ 0 (-2) rfl rfl
    (by decide) (by decide)).2 0

/-- C10 counterexample: the token -3 is negative and differs from the
sentinel -1, yet with a 1-row embedding matrix embed fails with IndexError
rather than selecting a row counted from the end, even though -3 is not at
or beyond the row count. -/
theorem embed_too_negative_token_errors :
    embed [(-3 : ℤ)] matSingle = .error .indexError ∧
      ((-3 : ℤ) ≠ -1) ∧ ((-3 : ℤ) < 0) ∧ ¬((matSingle.rows : ℤ) ≤ -3) :=
  ⟨rfl, by decide, by decide, by decide⟩

end QKV
